import Mathlib

/-!
Verification of the pulumi-eks-production-project repository.

The first part embeds the Python modules under `src/` (configuration
dictionaries, the VPC / IAM / EKS / add-ons wiring and the config loader).
The second part models, from the specification, the reconciling
cluster-provisioning controller design (resource graph builder, reconciler
apply/destroy) that the specification describes, and proves its stated
properties.
-/

namespace EksRepo

/-- A Python value as it occurs in the repository's configuration
dictionaries: booleans, integers, strings, `None` and nested dicts. -/
inductive PyVal where
  | bool (b : Bool)
  | int (n : Int)
  | str (s : String)
  | none
  | dict (entries : List (String × PyVal))

/-- Python truthiness of a configuration value (`bool(v)`). -/
def truthy : PyVal → Bool
  | .bool b => b
  | .int n => n != 0
  | .str s => s != ""
  | .none => false
  | .dict es => !es.isEmpty

/-- Association-list lookup mirroring `dict.get(key, default)`. -/
def dictGet (d : List (String × PyVal)) (key : String) (dflt : PyVal) : PyVal :=
  match d.find? (fun e => e.1 == key) with
  | some e => e.2
  | Option.none => dflt

/-! ## Add-ons module (`src/infrastructure/addons/__init__.py`) -/

/-- `setup_addons`: the sequence of Helm charts installed by the add-ons
module, mirroring the six sequential `if addons_config.get(flag, True)`
blocks of the source. -/
def setup_addons (addons_config : List (String × PyVal)) : List String :=
  (if truthy (dictGet addons_config "metricsServer" (.bool true)) then
    ["metrics-server"] else []) ++
  (if truthy (dictGet addons_config "clusterAutoscaler" (.bool true)) then
    ["cluster-autoscaler"] else []) ++
  (if truthy (dictGet addons_config "awsLoadBalancerController" (.bool true)) then
    ["aws-load-balancer-controller"] else []) ++
  (if truthy (dictGet addons_config "externalDns" (.bool true)) then
    ["external-dns"] else []) ++
  (if truthy (dictGet addons_config "certManager" (.bool true)) then
    ["cert-manager"] else []) ++
  (if truthy (dictGet addons_config "ebsCsiDriver" (.bool true)) then
    ["aws-ebs-csi-driver"] else [])

/-- The flag-to-chart table of `setup_addons`. -/
def addonTable : List (String × String) :=
  [("metricsServer", "metrics-server"),
   ("clusterAutoscaler", "cluster-autoscaler"),
   ("awsLoadBalancerController", "aws-load-balancer-controller"),
   ("externalDns", "external-dns"),
   ("certManager", "cert-manager"),
   ("ebsCsiDriver", "aws-ebs-csi-driver")]

/-- The parameter names of `setup_addons` (its `def` signature has no
`**kwargs` and no `karpenter_config`). -/
def setup_addons_param_names : List String :=
  ["kubeconfig", "project_name", "aws_region", "addons_config",
   "cluster_name", "vpc_id"]

/-- The keyword arguments `main` passes to `setup_addons`
(`src/__main__.py` lines 74-82). -/
def main_setup_addons_kwargs : List String :=
  ["kubeconfig", "project_name", "aws_region", "addons_config",
   "cluster_name", "vpc_id", "karpenter_config"]

/-- Outcome of a Python call: either the callee's result, or a `TypeError`
raised at binding time naming the first unexpected keyword argument. -/
inductive CallOutcome (α : Type) where
  | ok (result : α)
  | typeError (unexpectedKeyword : String)
deriving DecidableEq

/-- Python keyword-argument binding: a `TypeError` is raised, and the body
never runs, as soon as some keyword has no matching parameter. -/
def bindCall {α : Type} (params kwargs : List String) (body : α) : CallOutcome α :=
  match kwargs.find? (fun k => !(params.contains k)) with
  | some k => .typeError k
  | Option.none => .ok body

/-- The add-ons step of `main` (`src/__main__.py` lines 64-82): when
`addons_config.get("enable", True)` is truthy, `main` invokes
`setup_addons` with its keyword arguments; otherwise the step is skipped
(`Option.none`). -/
def main_addons_step (addons_config : List (String × PyVal)) :
    Option (CallOutcome (List String)) :=
  if truthy (dictGet addons_config "enable" (.bool true)) then
    some (bindCall setup_addons_param_names main_setup_addons_kwargs
      (setup_addons addons_config))
  else
    Option.none

/-! ## IAM module (`src/infrastructure/iam/__init__.py`) -/

/-- The `json.dumps` output of the EKS cluster role's trust policy
(`create_iam_roles`, lines 35-42). -/
def clusterAssumeRolePolicy : String :=
  "\x7b\"Version\": \"2012-10-17\", \"Statement\": [\x7b\"Effect\": \"Allow\", \"Principal\": \x7b\"Service\": \"eks.amazonaws.com\"\x7d, \"Action\": \"sts:AssumeRole\"\x7d]\x7d"

/-- The `json.dumps` output of the node group role's trust policy
(`create_iam_roles`, lines 59-66). -/
def nodeAssumeRolePolicy : String :=
  "\x7b\"Version\": \"2012-10-17\", \"Statement\": [\x7b\"Effect\": \"Allow\", \"Principal\": \x7b\"Service\": \"ec2.amazonaws.com\"\x7d, \"Action\": \"sts:AssumeRole\"\x7d]\x7d"

/-- An IAM role resource: its Pulumi resource name and its assume-role
(trust) policy document. -/
structure IamRole where
  resName : String
  assume_role_policy : String
deriving DecidableEq

/-- The provider-assigned role ARN, modelled as an injective function of
the role's resource name. -/
def IamRole.arn (r : IamRole) : String :=
  "arn:aws:iam::aws:role/" ++ r.resName

/-- Output of `create_iam_roles`. -/
structure IamOutput where
  cluster_role : IamRole
  node_role : IamRole
deriving DecidableEq

/-- `create_iam_roles`: builds the cluster role and the node role with
their fixed trust policy documents. -/
def create_iam_roles (project_name : String) : IamOutput :=
  { cluster_role := ⟨project_name ++ "-cluster-role", clusterAssumeRolePolicy⟩,
    node_role := ⟨project_name ++ "-node-role", nodeAssumeRolePolicy⟩ }

/-- All assume-role (trust) policy documents created by the program. -/
def trust_policies (r : IamOutput) : List String :=
  [r.cluster_role.assume_role_policy, r.node_role.assume_role_policy]

/-- Split a character list at every occurrence of `sep`, keeping empty
segments — the semantics of Python's `str.split(sep)`. -/
def splitOnChar (sep : Char) : List Char → List (List Char)
  | [] => [[]]
  | c :: rest =>
    let r := splitOnChar sep rest
    if c = sep then [] :: r
    else
      match r with
      | [] => [[c]]
      | h :: t => (c :: h) :: t

/-- Python's `s.split(sep)` for a one-character separator. -/
def pySplit (s : String) (sep : Char) : List String :=
  (splitOnChar sep s.data).map String.mk

/-- `oidc_provider_id` of `create_eks_cluster` (line 124): the substring
of the OIDC provider URL after its last `/` (`url.split('/')[-1]`). -/
def oidc_provider_id_of (url : String) : String :=
  (pySplit url '/').getLastD ""

/-! Substring occurrence, for deciding whether an OIDC provider id occurs
in a trust policy document. -/

/-- `needle` occurs as a contiguous sublist of `hay`. -/
def listContainsSub (hay needle : List Char) : Bool :=
  (List.range (hay.length + 1)).any
    (fun i => (hay.drop i).take needle.length == needle)

/-- `needle` occurs as a substring of `hay`. -/
def strContains (hay needle : String) : Bool :=
  listContainsSub hay.data needle.data

/-- Upper-case hexadecimal digit, the alphabet of EKS OIDC provider ids. -/
def isUpperHex (c : Char) : Bool :=
  ('0' ≤ c && c ≤ '9') || ('A' ≤ c && c ≤ 'F')

/-- Every window of `n` consecutive characters of `s` contains a
non-upper-hex character (or is shorter than `n`). -/
def hexWindowFree (s : String) (n : Nat) : Bool :=
  (List.range (s.data.length + 1)).all (fun i =>
    decide (((s.data.drop i).take n).length < n) ||
    !(((s.data.drop i).take n).all isUpperHex))

/-! ## VPC module (`src/infrastructure/vpc/__init__.py`) -/

/-- An `aws.ec2.Subnet` resource as created by `create_vpc`. -/
structure Subnet where
  resName : String
  cidr_block : String
  availability_zone : String
  map_public_ip_on_launch : Bool
deriving DecidableEq

/-- The `VpcOutput` class of the source. -/
structure VpcOutput where
  vpc_id : String
  private_subnet_ids : List String
  public_subnet_ids : List String
deriving DecidableEq

/-- `create_vpc`'s created resources together with its returned output. -/
structure VpcResult where
  vpc_cidr : String
  public_subnets : List Subnet
  private_subnets : List Subnet
  output : VpcOutput
deriving DecidableEq

/-- `create_vpc`: a 10.0.0.0/16 VPC with one public subnet
`10.0.{i}.0/24` and one private subnet `10.0.{i+10}.0/24` per
availability zone, over the first two availability zones. Subnet ids are
modelled by the Pulumi resource names. -/
def create_vpc (project_name : String) (azNames : List String) : VpcResult :=
  let azs := azNames.take 2
  let pubs := azs.enum.map (fun p =>
    Subnet.mk (project_name ++ "-public-" ++ toString p.1)
      ("10.0." ++ toString p.1 ++ ".0/24") p.2 true)
  let privs := azs.enum.map (fun p =>
    Subnet.mk (project_name ++ "-private-" ++ toString p.1)
      ("10.0." ++ toString (p.1 + 10) ++ ".0/24") p.2 false)
  { vpc_cidr := "10.0.0.0/16"
    public_subnets := pubs
    private_subnets := privs
    output := { vpc_id := project_name ++ "-vpc"
                private_subnet_ids := privs.map Subnet.resName
                public_subnet_ids := pubs.map Subnet.resName } }

/-- Decimal digit. -/
def isDecDigit (c : Char) : Bool := '0' ≤ c && c ≤ '9'

/-- Value of a non-empty all-decimal character list. -/
def digitsVal (l : List Char) : Option Nat :=
  if l.isEmpty then Option.none
  else if l.all isDecDigit then
    some (l.foldl (fun acc c => acc * 10 + (c.toNat - '0'.toNat)) 0)
  else Option.none

/-- Parse `a.b.c.d/m` into the numeric base address and the mask width. -/
def cidrParse (s : String) : Option (Nat × Nat) :=
  match splitOnChar '/' s.data with
  | [ip, m] =>
    match splitOnChar '.' ip with
    | [a, b, c, d] =>
      match digitsVal a, digitsVal b, digitsVal c, digitsVal d, digitsVal m with
      | some a', some b', some c', some d', some m' =>
        some ((((a' * 256 + b') * 256 + c') * 256 + d'), m')
      | _, _, _, _, _ => Option.none
    | _ => Option.none
  | _ => Option.none

/-- The half-open address range `[lo, hi)` of a CIDR block. -/
def cidrBlockRange (s : String) : Option (Nat × Nat) :=
  (cidrParse s).map (fun p => (p.1, p.1 + 2 ^ (32 - p.2)))

/-- Two CIDR blocks are address-disjoint. -/
def cidrDisjoint (s t : String) : Bool :=
  match cidrBlockRange s, cidrBlockRange t with
  | some a, some b => decide (a.2 ≤ b.1) || decide (b.2 ≤ a.1)
  | _, _ => false

/-- A CIDR block lies inside another. -/
def cidrWithin (s t : String) : Bool :=
  match cidrBlockRange s, cidrBlockRange t with
  | some a, some b => decide (b.1 ≤ a.1) && decide (a.2 ≤ b.2)
  | _, _ => false

/-- All blocks in the list are pairwise address-disjoint. -/
def pairwiseDisjoint : List String → Bool
  | [] => true
  | c :: rest => rest.all (cidrDisjoint c) && pairwiseDisjoint rest

/-! ## EKS module (`src/infrastructure/eks/__init__.py`) -/

/-- The `aws.eks.NodeGroup` resource created by `create_eks_cluster`
(lines 104-121). -/
structure NodeGroupRes where
  resName : String
  cluster_name : String
  node_role_arn : String
  subnet_ids : List String
  desired_size : PyVal
  min_size : PyVal
  max_size : PyVal
  instance_types : List PyVal

/-- `create_eks_cluster`'s created resources and returned outputs. The
cluster's OIDC provider URL is deploy-time data, passed in as `oidc_url`. -/
structure EksResult where
  cluster_name : String
  vpc_id : String
  cluster_subnet_ids : List String
  node_group : NodeGroupRes
  oidc_provider_id : String

/-- `create_eks_cluster`: the cluster spans private and public subnets,
while the managed node group is placed in the private subnets only, with
scaling sizes and instance type taken from `node_config` with defaults
2 / 2 / 5 / `t3.medium`. -/
def create_eks_cluster (project_name : String) (vpc_id : String)
    (private_subnet_ids public_subnet_ids : List String)
    (node_role_arn : String) (node_config : List (String × PyVal))
    (oidc_url : String) : EksResult :=
  { cluster_name := project_name ++ "-cluster"
    vpc_id := vpc_id
    cluster_subnet_ids := private_subnet_ids ++ public_subnet_ids
    node_group :=
      { resName := project_name ++ "-ng"
        cluster_name := project_name ++ "-cluster"
        node_role_arn := node_role_arn
        subnet_ids := private_subnet_ids
        desired_size := dictGet node_config "desiredSize" (.int 2)
        min_size := dictGet node_config "minSize" (.int 2)
        max_size := dictGet node_config "maxSize" (.int 5)
        instance_types := [dictGet node_config "instanceType" (.str "t3.medium")] }
    oidc_provider_id := oidc_provider_id_of oidc_url }

/-! ## `main`'s wiring (`src/__main__.py` lines 48-62) -/

/-- The infrastructure objects `main` assembles. -/
structure MainInfra where
  vpc : VpcResult
  roles : IamOutput
  cluster : EksResult

/-- The resource-creation sequence of `main`: VPC, then IAM roles, then
the EKS cluster wired from the VPC's outputs and the node role's ARN. -/
def main_infra (project_name : String) (azNames : List String)
    (node_config : List (String × PyVal)) (oidc_url : String) : MainInfra :=
  let vpc := create_vpc project_name azNames
  let roles := create_iam_roles project_name
  let cluster := create_eks_cluster project_name vpc.output.vpc_id
    vpc.output.private_subnet_ids vpc.output.public_subnet_ids
    roles.node_role.arn node_config oidc_url
  ⟨vpc, roles, cluster⟩

/-! ## The divergent add-ons module versions (spec §9) -/

/-- Modelled from the spec: the second divergent version of the add-ons
module, absent from `src/`. Its existence is witnessed by `main`'s call
protocol (`src/__main__.py` lines 69-82), which computes a
`karpenter_config` from `addons_config.get("karpenter", False)` and
passes it as a keyword argument: this version accepts the extra
configuration and installs Karpenter through its Helm chart when the
flag is truthy. -/
def setup_addons_v2 (addons_config : List (String × PyVal)) : List String :=
  setup_addons addons_config ++
  (if truthy (dictGet addons_config "karpenter" (.bool false)) then
    ["karpenter"] else [])

/-- Modelled from the spec: the third divergent version of the add-ons
module, absent from `src/`. Its add-on set follows the module docstring
(`src/infrastructure/addons/__init__.py` lines 4-13), which additionally
lists the Kubernetes Dashboard, and its Karpenter install strategy
applies raw controller manifests instead of the Helm chart. -/
def setup_addons_v3 (addons_config : List (String × PyVal)) : List String :=
  setup_addons addons_config ++
  (if truthy (dictGet addons_config "kubernetesDashboard" (.bool true)) then
    ["kubernetes-dashboard"] else []) ++
  (if truthy (dictGet addons_config "karpenter" (.bool false)) then
    ["karpenter-controller-manifests"] else [])

/-! ## Config loading (`src/__main__.py` lines 17-35) -/

/-- The environment-specific config path `config/eks-config.{env}.json`. -/
def eksConfigPathFor (env : String) : String :=
  "config/eks-config." ++ env ++ ".json"

/-- The default config path `config/eks-config.json`. -/
def eksConfigPathDefault : String :=
  "config/eks-config.json"

/-- Open and parse the first existing path; the second component records
which files were actually opened. -/
def loadFirst (parse : String → PyVal) (fs : String → Option String) :
    List String → Except String PyVal × List String
  | [] => (.error "FileNotFoundError", [])
  | p :: rest =>
    match fs p with
    | some content => (.ok (parse content), [p])
    | Option.none => loadFirst parse fs rest

/-- `load_eks_config`: try the environment-specific config (environment
variable `ENV`, defaulting to `dev`), fall back to the default config,
else raise `FileNotFoundError`. `fs` models the filesystem (`None` means
the file does not exist) and `parse` models `json.load`. -/
def load_eks_config (parse : String → PyVal) (envVar : Option String)
    (fs : String → Option String) : Except String PyVal × List String :=
  let env := envVar.getD "dev"
  loadFirst parse fs [eksConfigPathFor env, eksConfigPathDefault]

end EksRepo

namespace Controller

/-!
The reconciling cluster-provisioning controller of the specification
(§3-§4): resource graph builder, reconciler and state store. This design
is described by the specification only; the definitions below are
modelled from its text.
-/

/-- Modelled from the spec: the resource kinds of a ResourceNode (§3). -/
inductive RKind where
  | network
  | role
  | cluster
  | nodeGroup
  | addon
deriving DecidableEq

/-- Modelled from the spec: a desired-configuration value — a literal, or
a reference to a dependency's output attribute (§4.2 step 2). -/
inductive CValue where
  | lit (v : String)
  | ref (dep attr : String)
deriving DecidableEq

/-- Modelled from the spec: a declarative resource node (§3): unique
logical name, kind, desired configuration, declared dependencies. -/
structure NodeSpec where
  name : String
  kind : RKind
  config : List (String × CValue)
  deps : List String
deriving DecidableEq

/-- A declarative spec / resource graph: the list of its nodes. -/
abbrev RSpec := List NodeSpec

/-- Modelled from the spec: the errors of `build` (§4.1, §7). -/
inductive SpecError where
  | duplicateName (n : String)
  | unknownDependency (node dep : String)
  | cyclicDependency (n : String)
deriving DecidableEq

/-- The logical names of a graph. -/
def names (g : RSpec) : List String := g.map NodeSpec.name

/-- The dependency edge relation: `a` depends on `b`. -/
def Edge (g : RSpec) (a b : String) : Prop :=
  ∃ n ∈ g, n.name = a ∧ b ∈ n.deps

/-- A node lies on a dependency cycle: a nonempty dependency path from it
back to itself. -/
def OnCycle (g : RSpec) (c : String) : Prop :=
  Relation.TransGen (Edge g) c c

/-- First element that occurs again later in the list, if any. -/
def firstDup : List String → Option String
  | [] => Option.none
  | x :: xs => if xs.contains x then some x else firstDup xs

/-- First dependency reference that does not resolve to a node name. -/
def firstBadDep (g : RSpec) : Option (String × String) :=
  g.findSome? (fun n =>
    match n.deps.find? (fun d => !(names g).contains d) with
    | some d => some (n.name, d)
    | Option.none => Option.none)

/-- A node is ready when none of its dependencies is still unprocessed. -/
def isReady (remaining : List NodeSpec) (n : NodeSpec) : Bool :=
  n.deps.all (fun d => !(names remaining).contains d)

/-- Kahn's algorithm: repeatedly peel all ready nodes, producing the
topological order and the stuck remainder. -/
def kahnLoop : Nat → List NodeSpec → List String × List NodeSpec
  | 0, remaining => ([], remaining)
  | fuel + 1, remaining =>
    let rdy := remaining.filter (isReady remaining)
    if rdy.isEmpty then ([], remaining)
    else
      let r := kahnLoop fuel (remaining.filter (fun n => !isReady remaining n))
      (rdy.map NodeSpec.name ++ r.1, r.2)

/-- For a stuck node, pick a dependency that is itself stuck. -/
def nextStuck (rem : List NodeSpec) (x : String) : String :=
  match rem.find? (fun n => n.name == x) with
  | some n => (n.deps.find? (fun d => (names rem).contains d)).getD x
  | Option.none => x

/-- Name a node on a dependency cycle among the stuck nodes: iterate
`nextStuck` one step beyond the number of stuck nodes and report the
first repeated node. -/
def findCycleNode (rem : List NodeSpec) : String :=
  match rem with
  | [] => ""
  | n :: _ =>
    let seq := (List.range (rem.length + 1)).map
      (fun k => (nextStuck rem)^[k] n.name)
    (firstDup seq).getD n.name

/-- Modelled from the spec: `build` (§4.1) validates name uniqueness and
dependency resolution, rejects cyclic graphs with `CyclicDependencyError`
naming a node of a cycle, and produces the topological order. -/
def build (g : RSpec) : Except SpecError (List String) :=
  match firstDup (names g) with
  | some n => .error (.duplicateName n)
  | Option.none =>
    match firstBadDep g with
    | some p => .error (.unknownDependency p.1 p.2)
    | Option.none =>
      let r := kahnLoop g.length g
      if r.2.isEmpty then .ok r.1
      else .error (.cyclicDependency (findCycleNode r.2))

/-- `x`'s dependencies, as recorded in `g`, do not occur in `l`. -/
def NoDepIn (g : RSpec) (x : String) (l : List String) : Prop :=
  ∀ n ∈ g, n.name = x → ∀ d ∈ n.deps, d ∉ l

/-- Every node of the order appears after all of its dependencies: no
node's dependency occurs at or after the node itself. -/
def TopoSorted (g : RSpec) : List String → Prop
  | [] => True
  | x :: rest => NoDepIn g x (x :: rest) ∧ TopoSorted g rest

/-- Along the list, no dependent of a node occurs at or after the node —
the reverse-topological discipline of `destroy`. -/
def DependentsBefore (g : RSpec) : List String → Prop
  | [] => True
  | x :: rest => (∀ y ∈ g, x ∈ y.deps → y.name ∉ x :: rest) ∧
      DependentsBefore g rest

/-! ### Reconciler (spec §4.2) and State Store (spec §4.4, §6) -/

/-- Modelled from the spec: node lifecycle states (§3). -/
inductive LState where
  | pending
  | applying
  | applied
  | failed
  | deleting
  | deleted
deriving DecidableEq

/-- Resolved output attributes / resolved configuration: key-value pairs. -/
abbrev Attrs := List (String × String)

/-- Modelled from the spec: one State Store record per logical name (§6):
last-applied configuration, lifecycle state, resolved output attributes. -/
structure StoreRec where
  lastConfig : Attrs
  lstate : LState
  attrs : Attrs
deriving DecidableEq

/-- The State Store, keyed by logical name. -/
def Store : Type := String → Option StoreRec

/-- Modelled from the spec: the Provider Adapter boundary (§4.3): a
deterministic `ensure` outcome per node and resolved configuration, and
the provider-reported health status used by the idempotence check. -/
structure Provider where
  ensure : String → Attrs → Except String Attrs
  healthy : String → Bool

/-- Association-list lookup for attributes. -/
def lookupA : Attrs → String → Option String
  | [], _ => Option.none
  | (k, v) :: rest, key => if k = key then some v else lookupA rest key

/-- Point update of the store. -/
def upsert (s : Store) (x : String) (r : StoreRec) : Store :=
  fun y => if y = x then some r else s y

/-- Output attributes visible to dependents: populated only for nodes in
state Applied (§3, OutputAttribute). -/
def outsOf (s : Store) (dep attr : String) : Option String :=
  match s dep with
  | some r => if r.lstate = .applied then lookupA r.attrs attr else Option.none
  | Option.none => Option.none

/-- Resolve one configuration value (§4.2 step 2). -/
def resolveVal (outs : String → String → Option String) : CValue → Option String
  | .lit v => some v
  | .ref dep attr => outs dep attr

/-- Resolve a desired configuration; `Option.none` is the
`UnresolvedOutputError` of the spec. -/
def resolveConfig (outs : String → String → Option String) :
    List (String × CValue) → Option Attrs
  | [] => some []
  | (k, v) :: rest =>
    match resolveVal outs v, resolveConfig outs rest with
    | some s, some r => some ((k, s) :: r)
    | _, _ => Option.none

/-- All of the node's dependencies are in state Applied (§4.2 step 1). -/
def depsApplied (s : Store) (deps : List String) : Bool :=
  deps.all (fun d =>
    match s d with
    | some r => r.lstate == .applied
    | Option.none => false)

/-- Record a node failure. -/
def setFail (s : Store) (x : String) : Store :=
  match s x with
  | some r => upsert s x { r with lstate := .failed }
  | Option.none => upsert s x ⟨[], .failed, []⟩

/-- Invoke the provider's `ensure` and commit the outcome (§4.2 step 4);
the second component counts the issued `ensure` call. -/
def ensureNode (p : Provider) (s : Store) (nm : String) (rc : Attrs) :
    Store × Nat :=
  match p.ensure nm rc with
  | .ok attrs => (upsert s nm ⟨rc, .applied, attrs⟩, 1)
  | .error _ => (setFail s nm, 1)

/-- Modelled from the spec: reconcile one node (§4.2 steps 1-4):
dependency gating, configuration resolution, diff against the last
applied configuration with the idempotent skip, else a provider call. -/
def applyNode (p : Provider) (s : Store) (n : NodeSpec) : Store × Nat :=
  if depsApplied s n.deps then
    match resolveConfig (outsOf s) n.config with
    | some rc =>
      match s n.name with
      | some r =>
        if r.lastConfig = rc ∧ p.healthy n.name = true then
          (upsert s n.name { r with lstate := .applied }, 0)
        else ensureNode p s n.name rc
      | Option.none => ensureNode p s n.name rc
    | Option.none => (setFail s n.name, 0)
  else (setFail s n.name, 0)

/-- Find a node by logical name. -/
def findNode (g : RSpec) (x : String) : Option NodeSpec :=
  g.find? (fun n => n.name == x)

/-- Reconcile the nodes in the given order, counting `ensure` calls. -/
def applyOrd (p : Provider) (g : RSpec) : Store → List String → Store × Nat
  | s, [] => (s, 0)
  | s, x :: rest =>
    match findNode g x with
    | some n =>
      ((applyOrd p g (applyNode p s n).1 rest).1,
       (applyNode p s n).2 + (applyOrd p g (applyNode p s n).1 rest).2)
    | Option.none => applyOrd p g s rest

/-- Modelled from the spec: `apply` (§4.2): build the graph, then
reconcile in topological order. -/
def applyGraph (p : Provider) (g : RSpec) (s : Store) :
    Except SpecError (Store × Nat) :=
  (build g).map (fun ord => applyOrd p g s ord)

/-- Tear down one node: an Applied node transitions to Deleted and is
recorded in the deletion sequence; others were never applied and are
skipped. -/
def destroyNode (s : Store) (x : String) : Store × List String :=
  match s x with
  | some r =>
    if r.lstate = .applied then
      (upsert s x { r with lstate := .deleted }, [x])
    else (s, [])
  | Option.none => (s, [])

/-- Tear down the nodes in the given order, collecting the deletion
sequence. -/
def destroyOrd : Store → List String → Store × List String
  | s, [] => (s, [])
  | s, x :: rest =>
    ((destroyOrd (destroyNode s x).1 rest).1,
     (destroyNode s x).2 ++ (destroyOrd (destroyNode s x).1 rest).2)

/-- Modelled from the spec: `destroy` (§4.2 end): deletion follows the
reverse topological order. -/
def destroyGraph (g : RSpec) (s : Store) :
    Except SpecError (Store × List String) :=
  (build g).map (fun ord => destroyOrd s ord.reverse)

/-- The record of `x` is in state Applied. -/
def isAppliedIn (s : Store) (x : String) : Bool :=
  match s x with
  | some r => r.lstate == .applied
  | Option.none => false

/-- The dependency targets referenced from a configuration. -/
def refDeps (cfg : List (String × CValue)) : List String :=
  cfg.filterMap (fun kv =>
    match kv.2 with
    | .ref d _ => some d
    | .lit _ => Option.none)

/-- Configuration references point only at declared dependencies (§4.2
step 2 resolves references to dependencies' output attributes). -/
def RefsOk (g : RSpec) : Prop :=
  ∀ n ∈ g, ∀ d ∈ refDeps n.config, d ∈ n.deps

/-- Example graph of spec §8: Network and Role without dependencies,
Cluster depending on both, NodeGroup on Cluster, the autoscaler add-on on
NodeGroup. -/
def exampleGraph : RSpec :=
  [⟨"network", .network, [], []⟩,
   ⟨"role", .role, [], []⟩,
   ⟨"cluster", .cluster, [], ["network", "role"]⟩,
   ⟨"nodeGroup", .nodeGroup, [], ["cluster"]⟩,
   ⟨"addon-autoscaler", .addon, [], ["nodeGroup"]⟩]

/-- A two-node cyclic graph. -/
def cyclicGraph : RSpec :=
  [⟨"a", .network, [], ["b"]⟩,
   ⟨"b", .role, [], ["a"]⟩]

/-- A provider whose `ensure` always succeeds and reports every node
healthy. -/
def exampleProvider : Provider :=
  ⟨fun _ _ => .ok [("id", "X")], fun _ => true⟩

/-- The empty state store. -/
def emptyStore : Store := fun _ => Option.none

/-- A store in which every node is recorded as Applied. -/
def allAppliedStore : Store := fun _ => some ⟨[], .applied, []⟩

end Controller

namespace EksRepo

theorem mem_if_singleton {c : Prop} [Decidable c] (a b : String) :
    a ∈ (if c then [b] else []) ↔ c ∧ a = b := by
  split <;> simp_all

/-- C1: the add-ons step of `main` is taken exactly when
`addons_config.get("enable", True)` is truthy, and within `setup_addons`
each of the six add-ons is installed exactly when its flag in
`addons_config` is truthy, defaulting to `True` when the key is absent. -/
theorem setup_addons_flags_characterize
    (addons_config : List (String × PyVal)) :
    ((main_addons_step addons_config).isSome ↔
      truthy (dictGet addons_config "enable" (.bool true)) = true) ∧
    (∀ p ∈ addonTable,
      p.2 ∈ setup_addons addons_config ↔
        truthy (dictGet addons_config p.1 (.bool true)) = true) := by
  constructor
  · by_cases h : truthy (dictGet addons_config "enable" (.bool true)) = true <;>
      simp [main_addons_step, h]
  · intro p hp
    fin_cases hp <;>
      simp [setup_addons, List.mem_append, mem_if_singleton]

/-- C1 witness: with `metricsServer` explicitly enabled, the metrics
server chart is installed. -/
theorem setup_addons_flags_characterize_witness :
    ("metricsServer", "metrics-server") ∈ addonTable ∧
    ("metrics-server" ∈ setup_addons [("metricsServer", PyVal.bool true)] ↔
      truthy (dictGet [("metricsServer", PyVal.bool true)] "metricsServer"
        (.bool true)) = true) :=
  ⟨by decide,
   (setup_addons_flags_characterize [("metricsServer", PyVal.bool true)]).2
     ("metricsServer", "metrics-server") (by decide)⟩

/-- C2: whenever `addons_config.get("enable", True)` is truthy, `main`'s
call to `setup_addons` raises a `TypeError` for the unexpected keyword
argument `karpenter_config`, and no add-on is installed. -/
theorem main_addons_step_typeerror (addons_config : List (String × PyVal))
    (h : truthy (dictGet addons_config "enable" (.bool true)) = true) :
    main_addons_step addons_config =
      some (.typeError "karpenter_config") ∧
    ∀ installs, main_addons_step addons_config ≠ some (.ok installs) := by
  have hb : bindCall setup_addons_param_names main_setup_addons_kwargs
      (setup_addons addons_config) =
        CallOutcome.typeError "karpenter_config" := rfl
  refine ⟨?_, ?_⟩
  · simp [main_addons_step, h, hb]
  · intro installs
    simp [main_addons_step, h, hb]

/-- C2 witness: on the empty add-ons configuration (enable defaults to
`True`) the call raises `TypeError: karpenter_config`. -/
theorem main_addons_step_typeerror_witness :
    truthy (dictGet [] "enable" (.bool true)) = true ∧
    main_addons_step [] = some (.typeError "karpenter_config") :=
  ⟨by decide, (main_addons_step_typeerror [] (by decide)).1⟩

/-- A string with a 32-character window alphabet check cannot contain any
32-character upper-hex string. -/
theorem strContains_eq_false_of_hexWindowFree (s idStr : String)
    (hfree : hexWindowFree s 32 = true)
    (hlen : idStr.data.length = 32)
    (hhex : idStr.data.all isUpperHex = true) :
    strContains s idStr = false := by
  by_contra h
  rw [Bool.not_eq_false] at h
  unfold strContains listContainsSub at h
  rw [List.any_eq_true] at h
  obtain ⟨i, hi, hwin⟩ := h
  have hwin' : (s.data.drop i).take idStr.data.length = idStr.data :=
    eq_of_beq hwin
  rw [hlen] at hwin'
  unfold hexWindowFree at hfree
  rw [List.all_eq_true] at hfree
  have hx := hfree i hi
  rw [hwin', hlen, hhex] at hx
  simp at hx

set_option maxRecDepth 100000 in
/-- C3 counterexample: at a concrete deployment with a standard EKS OIDC
provider URL, the `oidc_provider_id` occurs in none of the assume-role
policies created by the program. -/
theorem oidc_id_unused_counterexample :
    (trust_policies (create_iam_roles "eks-prod")).all
      (fun p => !(strContains p (oidc_provider_id_of
        "https://oidc.eks.us-west-2.amazonaws.com/id/0A1B2C3D4E5F60718293A4B5C6D7E8F9")))
      = true := by
  decide

set_option maxRecDepth 100000 in
/-- C3 amended: `create_eks_cluster` computes `oidc_provider_id` (the
substring of the OIDC provider URL after its last `/`) but it is not used
in any IAM role's assume-role policy: for every OIDC provider id of the
standard 32-character upper-hex form, no trust policy created by the
program contains it. -/
theorem oidc_provider_id_not_in_trust_policies
    (project_name oidcId : String)
    (hlen : oidcId.data.length = 32)
    (hhex : oidcId.data.all isUpperHex = true) :
    ∀ p ∈ trust_policies (create_iam_roles project_name),
      strContains p oidcId = false := by
  intro p hp
  simp only [trust_policies, create_iam_roles, List.mem_cons,
    List.mem_singleton, List.not_mem_nil, or_false] at hp
  rcases hp with rfl | rfl
  · exact strContains_eq_false_of_hexWindowFree _ _ (by decide) hlen hhex
  · exact strContains_eq_false_of_hexWindowFree _ _ (by decide) hlen hhex

set_option maxRecDepth 100000 in
/-- C3 witness: the cluster role's trust policy does not contain the
example OIDC provider id. -/
theorem oidc_provider_id_not_in_trust_policies_witness :
    ("0A1B2C3D4E5F60718293A4B5C6D7E8F9" : String).data.length = 32 ∧
    strContains clusterAssumeRolePolicy
      "0A1B2C3D4E5F60718293A4B5C6D7E8F9" = false :=
  ⟨by decide,
   oidc_provider_id_not_in_trust_policies "eks-prod"
     "0A1B2C3D4E5F60718293A4B5C6D7E8F9" (by decide) (by decide)
     clusterAssumeRolePolicy
     (by simp [trust_policies, create_iam_roles])⟩

/-- C4: in `main`'s wiring, the node group lives in exactly the private
subnet ids returned by `create_vpc`, uses the node role ARN returned by
`create_iam_roles`, and takes its scaling sizes and instance type from
`node_config` with defaults 2 / 2 / 5 / `t3.medium`. -/
theorem node_group_wiring (project_name : String) (azNames : List String)
    (node_config : List (String × PyVal)) (oidc_url : String) :
    (main_infra project_name azNames node_config oidc_url).cluster.node_group.subnet_ids
      = (main_infra project_name azNames node_config oidc_url).vpc.output.private_subnet_ids ∧
    (main_infra project_name azNames node_config oidc_url).cluster.node_group.node_role_arn
      = (main_infra project_name azNames node_config oidc_url).roles.node_role.arn ∧
    (main_infra project_name azNames node_config oidc_url).cluster.node_group.desired_size
      = dictGet node_config "desiredSize" (.int 2) ∧
    (main_infra project_name azNames node_config oidc_url).cluster.node_group.min_size
      = dictGet node_config "minSize" (.int 2) ∧
    (main_infra project_name azNames node_config oidc_url).cluster.node_group.max_size
      = dictGet node_config "maxSize" (.int 5) ∧
    (main_infra project_name azNames node_config oidc_url).cluster.node_group.instance_types
      = [dictGet node_config "instanceType" (.str "t3.medium")] :=
  ⟨rfl, rfl, rfl, rfl, rfl, rfl⟩

/-- C5: the three versions of the add-ons module are pairwise
non-equivalent: the `src/` version never installs Karpenter, the second
version installs the Karpenter Helm chart when its flag is set, and the
third version installs the Kubernetes Dashboard and uses the manifest
install strategy for Karpenter. -/
theorem addons_module_versions_pairwise_divergent :
    setup_addons [("karpenter", PyVal.bool true)] ≠
      setup_addons_v2 [("karpenter", PyVal.bool true)] ∧
    setup_addons [] ≠ setup_addons_v3 [] ∧
    setup_addons_v2 [("karpenter", PyVal.bool true)] ≠
      setup_addons_v3 [("karpenter", PyVal.bool true)] :=
  ⟨by decide, by decide, by decide⟩

set_option maxRecDepth 100000 in
/-- C9: with at least two availability zones, `create_vpc` returns two
public and two private subnets, one of each per availability zone, with
the stated `/24` blocks, pairwise disjoint and inside the VPC's
`10.0.0.0/16`, public subnets mapping public IPs on launch and private
subnets not. -/
theorem create_vpc_subnet_layout (project_name : String)
    (azNames : List String) (h2 : 2 ≤ azNames.length) :
    (create_vpc project_name azNames).output.public_subnet_ids.length = 2 ∧
    (create_vpc project_name azNames).output.private_subnet_ids.length = 2 ∧
    (create_vpc project_name azNames).public_subnets.map Subnet.cidr_block
      = ["10.0.0.0/24", "10.0.1.0/24"] ∧
    (create_vpc project_name azNames).private_subnets.map Subnet.cidr_block
      = ["10.0.10.0/24", "10.0.11.0/24"] ∧
    (create_vpc project_name azNames).public_subnets.map Subnet.availability_zone
      = azNames.take 2 ∧
    (create_vpc project_name azNames).private_subnets.map Subnet.availability_zone
      = azNames.take 2 ∧
    ((create_vpc project_name azNames).public_subnets.all
      Subnet.map_public_ip_on_launch) = true ∧
    ((create_vpc project_name azNames).private_subnets.all
      (fun s => !s.map_public_ip_on_launch)) = true ∧
    pairwiseDisjoint
      (((create_vpc project_name azNames).public_subnets ++
        (create_vpc project_name azNames).private_subnets).map Subnet.cidr_block)
      = true ∧
    ((((create_vpc project_name azNames).public_subnets ++
        (create_vpc project_name azNames).private_subnets).map Subnet.cidr_block).all
      (fun c => cidrWithin c (create_vpc project_name azNames).vpc_cidr)) = true := by
  rcases azNames with _ | ⟨a, rest⟩
  · simp at h2
  rcases rest with _ | ⟨b, t⟩
  · simp at h2
  have hpub : (create_vpc project_name (a :: b :: t)).public_subnets.map Subnet.cidr_block
      = ["10.0.0.0/24", "10.0.1.0/24"] := by
    show ["10.0." ++ toString (0 : Nat) ++ ".0/24",
          "10.0." ++ toString (1 : Nat) ++ ".0/24"] = _
    rfl
  have hpriv : (create_vpc project_name (a :: b :: t)).private_subnets.map Subnet.cidr_block
      = ["10.0.10.0/24", "10.0.11.0/24"] := by
    show ["10.0." ++ toString (10 : Nat) ++ ".0/24",
          "10.0." ++ toString (11 : Nat) ++ ".0/24"] = _
    rfl
  have hm : ((create_vpc project_name (a :: b :: t)).public_subnets ++
      (create_vpc project_name (a :: b :: t)).private_subnets).map Subnet.cidr_block
      = ["10.0.0.0/24", "10.0.1.0/24", "10.0.10.0/24", "10.0.11.0/24"] := by
    rw [List.map_append, hpub, hpriv]; rfl
  have hv : (create_vpc project_name (a :: b :: t)).vpc_cidr = "10.0.0.0/16" := rfl
  refine ⟨rfl, rfl, hpub, hpriv, rfl, rfl, rfl, rfl, ?_, ?_⟩
  · rw [hm]; decide
  · simp only [hm, hv]; decide

/-- C9 witness: two availability zones give two public subnet ids. -/
theorem create_vpc_subnet_layout_witness :
    2 ≤ (["us-east-1a", "us-east-1b"] : List String).length ∧
    (create_vpc "eks-prod" ["us-east-1a", "us-east-1b"]).output.public_subnet_ids.length
      = 2 :=
  ⟨by decide,
   (create_vpc_subnet_layout "eks-prod" ["us-east-1a", "us-east-1b"]
     (by decide)).1⟩

/-- The environment-specific config path never coincides with the default
config path, whatever the environment name. -/
theorem eksConfigPathFor_ne_default (env : String) :
    eksConfigPathFor env ≠ eksConfigPathDefault := by
  intro h
  have hl := congrArg String.length h
  rw [eksConfigPathFor, eksConfigPathDefault] at hl
  rw [String.length_append, String.length_append] at hl
  have e1 : ("config/eks-config." : String).length = 18 := rfl
  have e2 : (".json" : String).length = 5 := rfl
  have e3 : ("config/eks-config.json" : String).length = 22 := rfl
  omega

/-- C10: `load_eks_config` returns the parsed environment-specific config
when that file exists — and then never reads the default config — else
the parsed default config when that exists, else `FileNotFoundError`. -/
theorem load_eks_config_fallback (parse : String → PyVal)
    (envVar : Option String) (fs : String → Option String) :
    (∀ c, fs (eksConfigPathFor (envVar.getD "dev")) = some c →
      load_eks_config parse envVar fs =
        (.ok (parse c), [eksConfigPathFor (envVar.getD "dev")]) ∧
      eksConfigPathDefault ∉ (load_eks_config parse envVar fs).2) ∧
    (fs (eksConfigPathFor (envVar.getD "dev")) = Option.none →
      (∀ c, fs eksConfigPathDefault = some c →
        load_eks_config parse envVar fs = (.ok (parse c), [eksConfigPathDefault])) ∧
      (fs eksConfigPathDefault = Option.none →
        load_eks_config parse envVar fs = (.error "FileNotFoundError", []))) := by
  refine ⟨?_, ?_⟩
  · intro c hc
    refine ⟨?_, ?_⟩
    · simp [load_eks_config, loadFirst, hc]
    · simp only [load_eks_config, loadFirst, hc, List.mem_singleton]
      exact fun hcontra => eksConfigPathFor_ne_default _ hcontra.symm
  · intro h1
    refine ⟨?_, ?_⟩
    · intro c hc
      simp [load_eks_config, loadFirst, h1, hc]
    · intro hd
      simp [load_eks_config, loadFirst, h1, hd]

/-- C10 witness: with only the `dev`-specific config present, it is
parsed and the default config is never read. -/
theorem load_eks_config_fallback_witness :
    (fun p => if p = eksConfigPathFor "dev" then some "A" else Option.none)
      (eksConfigPathFor "dev") = some "A" ∧
    load_eks_config (fun _ => PyVal.dict []) Option.none
      (fun p => if p = eksConfigPathFor "dev" then some "A" else Option.none) =
      (.ok (PyVal.dict []), [eksConfigPathFor "dev"]) :=
  ⟨by simp,
   ((load_eks_config_fallback (fun _ => PyVal.dict []) Option.none
     (fun p => if p = eksConfigPathFor "dev" then some "A" else Option.none)).1
     "A" (by simp)).1⟩

end EksRepo

namespace Controller

theorem names_sublist {rem rem' : List NodeSpec} (h : rem.Sublist rem') :
    (names rem).Sublist (names rem') :=
  List.Sublist.map NodeSpec.name h

theorem mem_names {rem : List NodeSpec} {x : String} :
    x ∈ names rem ↔ ∃ n ∈ rem, n.name = x := by
  simp [names, List.mem_map]

theorem isReady_false {rem : List NodeSpec} {n : NodeSpec}
    (h : ¬ isReady rem n = true) : ∃ d ∈ n.deps, d ∈ names rem := by
  simp only [isReady, List.all_eq_true, Bool.not_eq_true', Bool.not_eq_false,
    not_forall] at h
  obtain ⟨d, hd, hc⟩ := h
  exact ⟨d, hd, by simpa [List.contains, List.elem_iff] using hc⟩

theorem isReady_true {rem : List NodeSpec} {n : NodeSpec}
    (h : isReady rem n = true) : ∀ d ∈ n.deps, d ∉ names rem := by
  simp only [isReady, List.all_eq_true, Bool.not_eq_true'] at h
  intro d hd hmem
  have h2 := h d hd
  have h3 : List.elem d (names rem) = true := List.elem_iff.mpr hmem
  exact absurd (h3.symm.trans h2) (by simp)

theorem kahnLoop_rem_sublist :
    ∀ (fuel : Nat) (rem : List NodeSpec), (kahnLoop fuel rem).2.Sublist rem := by
  intro fuel
  induction fuel with
  | zero => intro rem; exact List.Sublist.refl _
  | succ fuel ih =>
    intro rem
    simp only [kahnLoop]
    by_cases h : (rem.filter (isReady rem)).isEmpty
    · simp [h]
    · simp only [h, Bool.false_eq_true, if_false]
      exact (ih _).trans (List.filter_sublist _)

theorem kahnLoop_ord_subset :
    ∀ (fuel : Nat) (rem : List NodeSpec) (x : String),
      x ∈ (kahnLoop fuel rem).1 → x ∈ names rem := by
  intro fuel
  induction fuel with
  | zero => intro rem x hx; simp [kahnLoop] at hx
  | succ fuel ih =>
    intro rem x hx
    simp only [kahnLoop] at hx
    by_cases h : (rem.filter (isReady rem)).isEmpty
    · simp [h] at hx
    · simp only [h, Bool.false_eq_true, if_false, List.mem_append] at hx
      rcases hx with hx | hx
      · simp only [List.mem_map] at hx
        obtain ⟨n, hn, rfl⟩ := hx
        exact mem_names.mpr ⟨n, (List.filter_sublist _).subset hn, rfl⟩
      · exact (names_sublist (List.filter_sublist _)).subset (ih _ x hx)

theorem kahnLoop_cover :
    ∀ (fuel : Nat) (rem : List NodeSpec) (x : String), x ∈ names rem →
      x ∈ (kahnLoop fuel rem).1 ∨ x ∈ names (kahnLoop fuel rem).2 := by
  intro fuel
  induction fuel with
  | zero => intro rem x hx; simp [kahnLoop, hx]
  | succ fuel ih =>
    intro rem x hx
    simp only [kahnLoop]
    by_cases h : (rem.filter (isReady rem)).isEmpty
    · simp [h, hx]
    · simp only [h, Bool.false_eq_true, if_false, List.mem_append]
      obtain ⟨n, hn, rfl⟩ := mem_names.mp hx
      by_cases hr : isReady rem n = true
      · left; left
        exact List.mem_map.mpr ⟨n, List.mem_filter.mpr ⟨hn, hr⟩, rfl⟩
      · have hn' : n ∈ rem.filter (fun m => !isReady rem m) :=
          List.mem_filter.mpr ⟨hn, by simpa using hr⟩
        rcases ih (rem.filter (fun m => !isReady rem m)) n.name
            (mem_names.mpr ⟨n, hn', rfl⟩) with h1 | h1
        · exact Or.inl (Or.inr h1)
        · exact Or.inr h1

theorem kahnLoop_stuck :
    ∀ (fuel : Nat) (rem : List NodeSpec), rem.length ≤ fuel →
      (kahnLoop fuel rem).2 = [] ∨
      ∀ n ∈ (kahnLoop fuel rem).2, ∃ d ∈ n.deps,
        d ∈ names (kahnLoop fuel rem).2 := by
  intro fuel
  induction fuel with
  | zero =>
    intro rem hlen
    left
    have : rem = [] := List.length_eq_zero.mp (Nat.le_zero.mp hlen)
    simp [kahnLoop, this]
  | succ fuel ih =>
    intro rem hlen
    simp only [kahnLoop]
    by_cases h : (rem.filter (isReady rem)).isEmpty
    · right
      simp only [h, if_true]
      intro n hn
      have hnr : ¬ isReady rem n = true := by
        have := List.filter_eq_nil.mp (List.isEmpty_iff.mp h)
        exact fun hc => this n hn hc
      exact isReady_false hnr
    · simp only [h, Bool.false_eq_true, if_false]
      have hlt : (rem.filter (fun m => !isReady rem m)).length < rem.length := by
        rw [List.length_filter_lt_length_iff_exists]
        have hne : rem.filter (isReady rem) ≠ [] := by
          intro heq; rw [heq] at h; simp at h
        obtain ⟨n, hn⟩ := List.exists_mem_of_ne_nil _ hne
        obtain ⟨hn, hr⟩ := List.mem_filter.mp hn
        exact ⟨n, hn, by simp [hr]⟩
      exact ih _ (by omega)

theorem kahnLoop_ord_nodup :
    ∀ (fuel : Nat) (rem : List NodeSpec), (names rem).Nodup →
      (kahnLoop fuel rem).1.Nodup := by
  intro fuel
  induction fuel with
  | zero => intro rem _; simp [kahnLoop]
  | succ fuel ih =>
    intro rem hnd
    simp only [kahnLoop]
    by_cases h : (rem.filter (isReady rem)).isEmpty
    · simp [h]
    · simp only [h, Bool.false_eq_true, if_false]
      rw [List.nodup_append]
      refine ⟨?_, ?_, ?_⟩
      · exact (names_sublist (List.filter_sublist _)).nodup hnd
      · exact ih _ ((names_sublist (List.filter_sublist _)).nodup hnd)
      · intro x hx hx'
        have hx2 := kahnLoop_ord_subset fuel _ x hx'
        obtain ⟨n1, hn1, he1⟩ := mem_names.mp (show x ∈ names (rem.filter (isReady rem)) from hx)
        obtain ⟨n2, hn2, he2⟩ := mem_names.mp hx2
        have hn1' := List.mem_filter.mp hn1
        have hn2' := List.mem_filter.mp hn2
        have : n1 = n2 :=
          List.inj_on_of_nodup_map hnd hn1'.1 hn2'.1 (he1.trans he2.symm)
        subst this
        have h1 := hn1'.2
        have h2 := hn2'.2
        simp [h1] at h2

theorem noDepIn_mono {g : RSpec} {x : String} {S l : List String}
    (h : NoDepIn g x S) (hsub : ∀ y ∈ l, y ∈ S) : NoDepIn g x l :=
  fun n hn hx d hd hdl => h n hn hx d hd (hsub d hdl)

theorem topoSorted_append {g : RSpec} {S : List String} :
    ∀ l1 l2, (∀ x ∈ l1, NoDepIn g x S) → (∀ y ∈ l1 ++ l2, y ∈ S) →
      TopoSorted g l2 → TopoSorted g (l1 ++ l2) := by
  intro l1
  induction l1 with
  | nil => intro l2 _ _ h2; simpa using h2
  | cons x l1 ih =>
    intro l2 h1 hS h2
    refine ⟨?_, ih l2 (fun y hy => h1 y (List.mem_cons_of_mem _ hy))
      (fun y hy => hS y (List.mem_cons_of_mem _ hy)) h2⟩
    exact noDepIn_mono (h1 x (List.mem_cons_self _ _)) (fun y hy => hS y hy)

theorem kahn_topo {g : RSpec} (hng : (names g).Nodup) :
    ∀ (fuel : Nat) (rem : List NodeSpec), rem.Sublist g →
      (kahnLoop fuel rem).2 = [] → TopoSorted g (kahnLoop fuel rem).1 := by
  intro fuel
  induction fuel with
  | zero =>
    intro rem _ _
    simp [kahnLoop, TopoSorted]
  | succ fuel ih =>
    intro rem hsub hrem
    simp only [kahnLoop] at hrem ⊢
    by_cases h : (rem.filter (isReady rem)).isEmpty
    · simp [h, TopoSorted]
    · simp only [h, Bool.false_eq_true, if_false] at hrem ⊢
      refine topoSorted_append (S := names rem) _ _ ?_ ?_ ?_
      · intro x hx
        obtain ⟨n, hn, rfl⟩ := List.mem_map.mp hx
        obtain ⟨hnrem, hnrdy⟩ := List.mem_filter.mp hn
        intro n' hn' he d hd
        have : n' = n := by
          refine List.inj_on_of_nodup_map hng hn' (hsub.subset hnrem) he
        subst this
        exact isReady_true hnrdy d hd
      · intro y hy
        rcases List.mem_append.mp hy with hy | hy
        · obtain ⟨n, hn, rfl⟩ := List.mem_map.mp hy
          exact mem_names.mpr ⟨n, (List.filter_sublist _).subset hn, rfl⟩
        · exact (names_sublist (List.filter_sublist _)).subset
            (kahnLoop_ord_subset fuel _ y hy)
      · exact ih _ ((List.filter_sublist _).trans hsub) hrem

theorem topoSorted_split {g : RSpec} :
    ∀ {l A : List String} {x : String} {B : List String}, TopoSorted g l →
      l = A ++ x :: B → NoDepIn g x (x :: B) := by
  intro l A
  induction A generalizing l with
  | nil =>
    intro x B ht he
    subst he
    exact ht.1
  | cons a A ih =>
    intro x B ht he
    subst he
    exact ih ht.2 rfl

theorem dependentsBefore_of {g : RSpec} :
    ∀ l : List String,
      (∀ A x B, l = A ++ x :: B → ∀ y ∈ g, x ∈ y.deps → y.name ∉ x :: B) →
      DependentsBefore g l := by
  intro l
  induction l with
  | nil => intro _; trivial
  | cons z rest ih =>
    intro h
    refine ⟨h [] z rest rfl, ih ?_⟩
    intro A x B he y hy hd
    exact h (z :: A) x B (by simp [he]) y hy hd

theorem topo_dependentsBefore_reverse {g : RSpec} {ord : List String}
    (ht : TopoSorted g ord) : DependentsBefore g ord.reverse := by
  refine dependentsBefore_of _ ?_
  intro A x B he y hy hdep hmem
  have hord : ord = B.reverse ++ x :: A.reverse := by
    have := congrArg List.reverse he
    rw [List.reverse_reverse] at this
    rw [this, List.reverse_append, List.reverse_cons, List.append_assoc]
    simp
  rcases List.mem_cons.mp hmem with hx | hB
  · have hnd := topoSorted_split ht hord
    exact hnd y hy hx x hdep (List.mem_cons_self _ _)
  · have hBrev : y.name ∈ B.reverse := List.mem_reverse.mpr hB
    obtain ⟨P, Q, hPQ⟩ := List.append_of_mem hBrev
    have hord2 : ord = P ++ y.name :: (Q ++ x :: A.reverse) := by
      rw [hord, hPQ, List.append_assoc]
      simp
    have hnd := topoSorted_split ht hord2
    refine hnd y hy rfl x hdep ?_
    exact List.mem_cons_of_mem _ (List.mem_append.mpr (Or.inr (List.mem_cons_self _ _)))

theorem contains_iff_mem {l : List String} {a : String} :
    l.contains a = true ↔ a ∈ l := by
  simp [List.contains, List.elem_iff]

theorem firstDup_cons (x : String) (xs : List String) :
    firstDup (x :: xs) = if xs.contains x then some x else firstDup xs := rfl

theorem firstDup_none_nodup : ∀ l : List String,
    firstDup l = Option.none → l.Nodup := by
  intro l
  induction l with
  | nil => intro _; exact List.nodup_nil
  | cons x xs ih =>
    intro h
    rw [firstDup_cons] at h
    by_cases hc : xs.contains x = true
    · rw [if_pos hc] at h
      exact absurd h (by simp)
    · rw [if_neg hc] at h
      refine List.nodup_cons.mpr ⟨?_, ih h⟩
      exact fun hmem => hc (contains_iff_mem.mpr hmem)

theorem nodup_firstDup_none : ∀ l : List String,
    l.Nodup → firstDup l = Option.none := by
  intro l
  induction l with
  | nil => intro _; rfl
  | cons x xs ih =>
    intro h
    obtain ⟨hx, hxs⟩ := List.nodup_cons.mp h
    have hc : ¬ xs.contains x = true := fun hcc => hx (contains_iff_mem.mp hcc)
    rw [firstDup_cons, if_neg hc]
    exact ih hxs

theorem firstDup_some_get? : ∀ (l : List String) (c : String),
    firstDup l = some c →
      ∃ i j, i < j ∧ l.get? i = some c ∧ l.get? j = some c := by
  intro l
  induction l with
  | nil => intro c h; simp [firstDup] at h
  | cons x xs ih =>
    intro c h
    rw [firstDup_cons] at h
    by_cases hc : xs.contains x = true
    · rw [if_pos hc] at h
      obtain rfl := Option.some.inj h
      obtain ⟨n, hn⟩ := List.get?_of_mem (contains_iff_mem.mp hc)
      exact ⟨0, n + 1, Nat.succ_pos n, rfl, by simpa using hn⟩
    · rw [if_neg hc] at h
      obtain ⟨i, j, hij, h1, h2⟩ := ih c h
      exact ⟨i + 1, j + 1, by omega, by simpa using h1, by simpa using h2⟩

theorem nextStuck_spec {rem : List NodeSpec} {x : String}
    (hfix : ∀ n ∈ rem, ∃ d ∈ n.deps, d ∈ names rem) (hx : x ∈ names rem) :
    nextStuck rem x ∈ names rem ∧
    ∃ n ∈ rem, n.name = x ∧ nextStuck rem x ∈ n.deps := by
  obtain ⟨n, hn, hname⟩ := mem_names.mp hx
  cases hm : rem.find? (fun n => n.name == x) with
  | none =>
    exfalso
    have := List.find?_eq_none.mp hm n hn
    simp [hname] at this
  | some m =>
    have hmmem := List.mem_of_find?_eq_some hm
    have hmname : m.name = x := by
      have := List.find?_some hm
      simpa using this
    obtain ⟨d, hd, hdnames⟩ := hfix m hmmem
    cases hd' : m.deps.find? (fun d => (names rem).contains d) with
    | none =>
      exfalso
      have := List.find?_eq_none.mp hd' d hd
      exact this (contains_iff_mem.mpr hdnames)
    | some d' =>
      have hd'mem := List.mem_of_find?_eq_some hd'
      have hd'names : d' ∈ names rem :=
        contains_iff_mem.mp (List.find?_some hd')
      have hns : nextStuck rem x = d' := by
        simp only [nextStuck, hm, hd', Option.getD_some]
      constructor
      · rw [hns]; exact hd'names
      · exact ⟨m, hmmem, hmname, by rw [hns]; exact hd'mem⟩

theorem nextStuck_iter_mem {rem : List NodeSpec}
    (hfix : ∀ n ∈ rem, ∃ d ∈ n.deps, d ∈ names rem) {x : String}
    (hx : x ∈ names rem) :
    ∀ k, (nextStuck rem)^[k] x ∈ names rem := by
  intro k
  induction k with
  | zero => simpa
  | succ k ih =>
    rw [Function.iterate_succ_apply']
    exact (nextStuck_spec hfix ih).1

theorem nextStuck_iter_cycle {g : RSpec} {rem : List NodeSpec}
    (hsub : rem.Sublist g)
    (hfix : ∀ n ∈ rem, ∃ d ∈ n.deps, d ∈ names rem) {x : String}
    (hx : x ∈ names rem) :
    ∀ m, 0 < m → Relation.TransGen (Edge g) x ((nextStuck rem)^[m] x) := by
  intro m
  induction m with
  | zero => intro h; omega
  | succ m ih =>
    intro _
    by_cases hm : m = 0
    · subst hm
      obtain ⟨-, n, hn, hname, hdep⟩ := nextStuck_spec hfix hx
      refine Relation.TransGen.single ?_
      simpa [Function.iterate_one] using
        (⟨n, hsub.subset hn, hname, hdep⟩ : Edge g x (nextStuck rem x))
    · have h1 := ih (by omega)
      rw [Function.iterate_succ_apply']
      refine Relation.TransGen.tail h1 ?_
      have hmem := nextStuck_iter_mem hfix hx m
      obtain ⟨-, n, hn, hname, hdep⟩ := nextStuck_spec hfix hmem
      exact ⟨n, hsub.subset hn, hname, hdep⟩

theorem stuck_cycle {g : RSpec}
    {rem : List NodeSpec} (hsub : rem.Sublist g)
    (hfix : ∀ n ∈ rem, ∃ d ∈ n.deps, d ∈ names rem)
    (hne : rem ≠ []) : OnCycle g (findCycleNode rem) := by
  obtain ⟨n0, rest, rfl⟩ := List.exists_cons_of_ne_nil hne
  have hx0 : n0.name ∈ names (n0 :: rest) :=
    mem_names.mpr ⟨n0, List.mem_cons_self _ _, rfl⟩
  set f := nextStuck (n0 :: rest) with hf
  set N := (n0 :: rest).length with hN
  set seq := (List.range (N + 1)).map (fun k => f^[k] n0.name) with hseq
  have hseqmem : ∀ y ∈ seq, y ∈ names (n0 :: rest) := by
    intro y hy
    obtain ⟨k, _, rfl⟩ := List.mem_map.mp hy
    exact nextStuck_iter_mem hfix hx0 k
  have hlen : seq.length = N + 1 := by rw [hseq]; simp [hN]
  have hfcn : findCycleNode (n0 :: rest) = (firstDup seq).getD n0.name := rfl
  cases hfd : firstDup seq with
  | none =>
    exfalso
    have hnd := firstDup_none_nodup seq hfd
    have hle := (List.subperm_of_subset hnd hseqmem).length_le
    have hnames : (names (n0 :: rest)).length = N := by simp [names, hN]
    omega
  | some c =>
    obtain ⟨i, j, hij, hi, hj⟩ := firstDup_some_get? seq c hfd
    obtain ⟨hjl, -⟩ := List.get?_eq_some.mp hj
    rw [hlen] at hjl
    have hseqget : ∀ k, k < N + 1 → seq.get? k = some (f^[k] n0.name) := by
      intro k hk
      rw [hseq, List.get?_map, List.get?_range hk]
      rfl
    have hival : f^[i] n0.name = c := by
      have h0 := hseqget i (by omega)
      rw [h0] at hi
      exact Option.some.inj hi
    have hjval : f^[j] n0.name = c := by
      have h0 := hseqget j hjl
      rw [h0] at hj
      exact Option.some.inj hj
    have hcycle : f^[j - i] c = c := by
      have h0 : f^[(j - i) + i] n0.name = f^[j] n0.name := by
        rw [Nat.sub_add_cancel (le_of_lt hij)]
      rw [Function.iterate_add_apply, hival] at h0
      rw [h0, hjval]
    have hcmem : c ∈ names (n0 :: rest) :=
      hival ▸ nextStuck_iter_mem hfix hx0 i
    have htg := nextStuck_iter_cycle hsub hfix hcmem (j - i) (by omega)
    rw [hcycle] at htg
    rw [hfcn, hfd]
    exact htg

theorem topo_edge_indexOf {g : RSpec} :
    ∀ ord : List String, TopoSorted g ord → ord.Nodup →
      ∀ a b, Edge g a b → a ∈ ord → b ∈ ord →
        ord.indexOf b < ord.indexOf a := by
  intro ord
  induction ord with
  | nil => intro _ _ a b _ ha _; simp at ha
  | cons x rest ih =>
    intro ht hnd a b hedge ha hb
    obtain ⟨n, hn, hname, hdep⟩ := hedge
    rcases List.mem_cons.mp ha with rfl | ha'
    · exact absurd hb (ht.1 n hn hname b hdep)
    · have hax : a ≠ x := by
        intro h
        subst h
        exact (List.nodup_cons.mp hnd).1 ha'
      rcases List.mem_cons.mp hb with rfl | hb'
      · rw [List.indexOf_cons_self, List.indexOf_cons_ne _ (Ne.symm hax)]
        omega
      · have hbx : b ≠ x := by
          intro h
          subst h
          exact (List.nodup_cons.mp hnd).1 hb'
        rw [List.indexOf_cons_ne _ (Ne.symm hax),
          List.indexOf_cons_ne _ (Ne.symm hbx)]
        have := ih ht.2 (List.nodup_cons.mp hnd).2 a b ⟨n, hn, hname, hdep⟩ ha' hb'
        omega

theorem transGen_indexOf {g : RSpec} {ord : List String}
    (ht : TopoSorted g ord) (hnd : ord.Nodup)
    (hres : ∀ n ∈ g, ∀ d ∈ n.deps, d ∈ names g)
    (hcov : ∀ y ∈ names g, y ∈ ord) :
    ∀ a b, Relation.TransGen (Edge g) a b →
      ord.indexOf b < ord.indexOf a := by
  have hmeml : ∀ u v, Edge g u v → u ∈ ord := by
    rintro u v ⟨n, hn, hname, -⟩
    exact hcov u (mem_names.mpr ⟨n, hn, hname⟩)
  have hmemr : ∀ u v, Edge g u v → v ∈ ord := by
    rintro u v ⟨n, hn, -, hdep⟩
    exact hcov v (hres n hn v hdep)
  intro a b htr
  induction htr with
  | single hedge =>
    exact topo_edge_indexOf ord ht hnd _ _ hedge
      (hmeml _ _ hedge) (hmemr _ _ hedge)
  | tail htr2 hedge ih =>
    have h2 := topo_edge_indexOf ord ht hnd _ _ hedge
      (hmeml _ _ hedge) (hmemr _ _ hedge)
    omega

theorem firstBadDep_none_of {g : RSpec}
    (hres : ∀ n ∈ g, ∀ d ∈ n.deps, d ∈ names g) :
    firstBadDep g = Option.none := by
  rw [firstBadDep, List.findSome?_eq_none]
  intro n hn
  have hfind : n.deps.find? (fun d => !(names g).contains d) = Option.none := by
    rw [List.find?_eq_none]
    intro d hd
    simp only [Bool.not_eq_true', Bool.not_eq_false]
    exact contains_iff_mem.mpr (hres n hn d hd)
  rw [hfind]

theorem firstBadDep_none_res {g : RSpec}
    (h : firstBadDep g = Option.none) :
    ∀ n ∈ g, ∀ d ∈ n.deps, d ∈ names g := by
  intro n hn d hd
  rw [firstBadDep, List.findSome?_eq_none] at h
  have hn2 := h n hn
  cases hfind : n.deps.find? (fun d => !(names g).contains d) with
  | none =>
    have := List.find?_eq_none.mp hfind d hd
    simpa [contains_iff_mem] using this
  | some d' =>
    rw [hfind] at hn2
    simp at hn2

/-- C6: for well-formed input (unique names, resolvable dependency
references), `build` succeeds exactly on acyclic graphs, and on a cyclic
graph it fails with `CyclicDependencyError` naming a node that lies on a
dependency cycle. -/
theorem build_cycle_detection (g : RSpec)
    (hnodup : (names g).Nodup)
    (hres : ∀ n ∈ g, ∀ d ∈ n.deps, d ∈ names g) :
    ((∀ x, ¬ OnCycle g x) → ∃ ord, build g = .ok ord) ∧
    ((∃ x, OnCycle g x) →
      ∃ c, build g = .error (.cyclicDependency c) ∧ OnCycle g c) := by
  have h1 : firstDup (names g) = Option.none := nodup_firstDup_none _ hnodup
  have h2 : firstBadDep g = Option.none := firstBadDep_none_of hres
  constructor
  · intro hacyc
    by_cases h3 : (kahnLoop g.length g).2.isEmpty
    · exact ⟨(kahnLoop g.length g).1, by simp [build, h1, h2, h3]⟩
    · exfalso
      rcases kahnLoop_stuck g.length g (le_refl _) with he | hfix
      · exact h3 (by simp [he])
      · have hne : (kahnLoop g.length g).2 ≠ [] := fun he => h3 (by simp [he])
        exact hacyc _
          (stuck_cycle (kahnLoop_rem_sublist _ _) hfix hne)
  · rintro ⟨x, hx⟩
    by_cases h3 : (kahnLoop g.length g).2.isEmpty
    · exfalso
      have hempty := List.isEmpty_iff.mp h3
      have htopo := kahn_topo hnodup g.length g (List.Sublist.refl g) hempty
      have hnd := kahnLoop_ord_nodup g.length g hnodup
      have hcov : ∀ y ∈ names g, y ∈ (kahnLoop g.length g).1 := by
        intro y hy
        rcases kahnLoop_cover g.length g y hy with h | h
        · exact h
        · rw [hempty] at h
          simp [names] at h
      exact absurd (transGen_indexOf htopo hnd hres hcov x x hx) (lt_irrefl _)
    · refine ⟨findCycleNode (kahnLoop g.length g).2,
        by simp [build, h1, h2, h3], ?_⟩
      rcases kahnLoop_stuck g.length g (le_refl _) with he | hfix
      · exact absurd (by simp [he] : (kahnLoop g.length g).2.isEmpty = true) h3
      · exact stuck_cycle (kahnLoop_rem_sublist _ _) hfix
          (fun he => h3 (by simp [he]))

set_option maxRecDepth 8192 in
/-- C6 witness: on the two-node cyclic graph, `build` fails with
`CyclicDependencyError` naming a node on the cycle. -/
theorem build_cycle_detection_witness :
    ∃ c, build cyclicGraph = .error (.cyclicDependency c) ∧
      OnCycle cyclicGraph c :=
  (build_cycle_detection cyclicGraph (by decide) (by decide)).2
    ⟨"a",
     Relation.TransGen.head
       ⟨⟨"a", .network, [], ["b"]⟩, by decide, rfl, by decide⟩
       (Relation.TransGen.single
         ⟨⟨"b", .role, [], ["a"]⟩, by decide, rfl, by decide⟩)⟩

theorem upsert_other {s : Store} {x y : String} {r : StoreRec} (h : y ≠ x) :
    upsert s x r y = s y := if_neg h

theorem setFail_other {s : Store} {x y : String} (h : y ≠ x) :
    setFail s x y = s y := by
  unfold setFail
  cases s x <;> exact if_neg h

theorem applyNode_preserve (p : Provider) (s : Store) (n : NodeSpec)
    {y : String} (h : y ≠ n.name) : (applyNode p s n).1 y = s y := by
  unfold applyNode ensureNode
  repeat' split
  all_goals
    first
      | exact upsert_other h
      | exact setFail_other h

theorem applyNode_write (p : Provider) (s : Store) (n : NodeSpec) :
    ∃ r', (applyNode p s n).1 = upsert s n.name r' ∧
      (r'.lstate = .applied →
        resolveConfig (outsOf s) n.config = some r'.lastConfig) := by
  unfold applyNode
  by_cases hd : depsApplied s n.deps = true
  · rw [if_pos hd]
    cases hrc : resolveConfig (outsOf s) n.config with
    | none =>
      simp only []
      unfold setFail
      cases hs : s n.name with
      | some r => exact ⟨_, rfl, fun h => absurd h (by simp)⟩
      | none => exact ⟨_, rfl, fun h => absurd h (by simp)⟩
    | some rc =>
      cases hs : s n.name with
      | some r =>
        simp only []
        by_cases hskip : r.lastConfig = rc ∧ p.healthy n.name = true
        · rw [if_pos hskip]
          exact ⟨_, rfl, fun _ => by rw [hskip.1]⟩
        · rw [if_neg hskip]
          unfold ensureNode
          cases he : p.ensure n.name rc with
          | ok attrs => exact ⟨_, rfl, fun _ => rfl⟩
          | error e =>
            unfold setFail
            cases hs2 : s n.name with
            | some r2 => exact ⟨_, rfl, fun h => absurd h (by simp)⟩
            | none => exact ⟨_, rfl, fun h => absurd h (by simp)⟩
      | none =>
        simp only []
        unfold ensureNode
        cases he : p.ensure n.name rc with
        | ok attrs => exact ⟨_, rfl, fun _ => rfl⟩
        | error e =>
          unfold setFail
          cases hs2 : s n.name with
          | some r2 => exact ⟨_, rfl, fun h => absurd h (by simp)⟩
          | none => exact ⟨_, rfl, fun h => absurd h (by simp)⟩
  · rw [if_neg hd]
    unfold setFail
    cases hs : s n.name with
    | some r => exact ⟨_, rfl, fun h => absurd h (by simp)⟩
    | none => exact ⟨_, rfl, fun h => absurd h (by simp)⟩

theorem applyNode_skip (p : Provider) (s : Store) (n : NodeSpec) (r : StoreRec)
    (hd : depsApplied s n.deps = true)
    (hs : s n.name = some r)
    (hrc : resolveConfig (outsOf s) n.config = some r.lastConfig)
    (happ : r.lstate = .applied)
    (hh : p.healthy n.name = true) :
    applyNode p s n = (s, 0) := by
  unfold applyNode
  rw [if_pos hd, hrc, hs]
  simp only []
  rw [if_pos ⟨trivial, hh⟩]
  have hr : { r with lstate := LState.applied } = r := by
    cases r with
    | mk lc st a =>
      simp only at happ
      rw [happ]
  rw [hr]
  have hup : upsert s n.name r = s := by
    funext y
    unfold upsert
    by_cases hy : y = n.name
    · subst hy; rw [if_pos rfl, hs]
    · rw [if_neg hy]
  rw [hup]

theorem applyOrd_preserve (p : Provider) (g : RSpec) :
    ∀ (l : List String) (s : Store) (y : String), y ∉ l →
      (applyOrd p g s l).1 y = s y := by
  intro l
  induction l with
  | nil => intro s y _; rfl
  | cons x rest ih =>
    intro s y hy
    have hyr : y ∉ rest := fun hc => hy (List.mem_cons_of_mem _ hc)
    have hyx : y ≠ x := fun hc => hy (hc ▸ List.mem_cons_self _ _)
    cases hf : findNode g x with
    | none =>
      simp only [applyOrd, hf]
      exact ih s y hyr
    | some n =>
      have hname : n.name = x := by simpa using List.find?_some hf
      simp only [applyOrd, hf]
      rw [ih _ y hyr]
      exact applyNode_preserve p s n (hname ▸ hyx)

theorem outsOf_congr {s1 s2 : Store} {d : String} (h : s1 d = s2 d) :
    ∀ a, outsOf s1 d a = outsOf s2 d a := by
  intro a
  unfold outsOf
  rw [h]

theorem refDeps_cons_ref (k dep attr : String) (rest : List (String × CValue)) :
    refDeps ((k, CValue.ref dep attr) :: rest) = dep :: refDeps rest := rfl

theorem refDeps_cons_lit (k w : String) (rest : List (String × CValue)) :
    refDeps ((k, CValue.lit w) :: rest) = refDeps rest := rfl

theorem resolveConfig_congr {o1 o2 : String → String → Option String} :
    ∀ cfg : List (String × CValue),
      (∀ d ∈ refDeps cfg, ∀ attr, o1 d attr = o2 d attr) →
      resolveConfig o1 cfg = resolveConfig o2 cfg := by
  intro cfg
  induction cfg with
  | nil => intro _; rfl
  | cons kv rest ih =>
    intro h
    obtain ⟨k, v⟩ := kv
    cases v with
    | lit w =>
      simp only [resolveConfig, resolveVal]
      rw [ih (fun d hd attr => h d hd attr)]
    | ref dep attr =>
      simp only [resolveConfig, resolveVal]
      rw [h dep (by rw [refDeps_cons_ref]; exact List.mem_cons_self _ _) attr,
        ih (fun d hd a =>
          h d (by rw [refDeps_cons_ref]; exact List.mem_cons_of_mem _ hd) a)]

theorem applyOrd_post (p : Provider) (g : RSpec) (hrefs : RefsOk g) :
    ∀ (l : List String) (s : Store), l.Nodup → TopoSorted g l →
      ∀ x ∈ l, ∀ n, findNode g x = some n →
        ∀ r, (applyOrd p g s l).1 x = some r → r.lstate = .applied →
          resolveConfig (outsOf (applyOrd p g s l).1) n.config
            = some r.lastConfig := by
  intro l
  induction l with
  | nil => intro s _ _ x hx; simp at hx
  | cons z rest ih =>
    intro s hnd htopo x hx n hfn r hr happ
    obtain ⟨hz, hndr⟩ := List.nodup_cons.mp hnd
    cases hfz : findNode g z with
    | none =>
      simp only [applyOrd, hfz] at hr ⊢
      rcases List.mem_cons.mp hx with rfl | hx'
      · rw [hfn] at hfz
        exact absurd hfz (by simp)
      · exact ih s hndr htopo.2 x hx' n hfn r hr happ
    | some m =>
      have hmmem : m ∈ g := List.mem_of_find?_eq_some hfz
      have hmname : m.name = z := by simpa using List.find?_some hfz
      simp only [applyOrd, hfz] at hr ⊢
      rcases List.mem_cons.mp hx with rfl | hx'
      · -- x (= z) was written by applyNode and untouched by the rest
        have hnm : n = m := by
          rw [hfn] at hfz
          exact Option.some.inj hfz
        subst hnm
        obtain ⟨r', hwrite, hres'⟩ := applyNode_write p s n
        have hs2x : (applyOrd p g (applyNode p s n).1 rest).1 x
            = (applyNode p s n).1 x :=
          applyOrd_preserve p g rest _ x hz
        rw [hs2x, hwrite] at hr
        have hru : upsert s n.name r' x = some r' := by
          unfold upsert
          rw [if_pos hmname.symm]
        rw [hru] at hr
        obtain rfl := Option.some.inj hr
        have hresolve := hres' happ
        -- the final store agrees with s on every dependency of n
        have hagree : ∀ d ∈ refDeps n.config, ∀ a,
            outsOf (applyOrd p g (applyNode p s n).1 rest).1 d a
              = outsOf s d a := by
          intro d hd a
          have hddep : d ∈ n.deps := hrefs n hmmem d hd
          have hdnot : d ∉ x :: rest := htopo.1 n hmmem hmname d hddep
          have hdx : d ≠ x := fun hc => hdnot (hc ▸ List.mem_cons_self _ _)
          have hdrest : d ∉ rest := fun hc => hdnot (List.mem_cons_of_mem _ hc)
          refine outsOf_congr ?_ a
          rw [applyOrd_preserve p g rest _ d hdrest]
          exact applyNode_preserve p s n (hmname ▸ hdx)
        rw [resolveConfig_congr n.config hagree]
        exact hresolve
      · exact ih _ hndr htopo.2 x hx' n hfn r hr happ

theorem applyOrd_noop (p : Provider) (g : RSpec)
    (hh : ∀ x, p.healthy x = true) :
    ∀ (l : List String) (s : Store),
      (∀ x ∈ l, ∀ n, findNode g x = some n →
        depsApplied s n.deps = true ∧
        ∃ r, s x = some r ∧ r.lstate = .applied ∧
          resolveConfig (outsOf s) n.config = some r.lastConfig) →
      applyOrd p g s l = (s, 0) := by
  intro l
  induction l with
  | nil => intro s _; rfl
  | cons z rest ih =>
    intro s H
    cases hfz : findNode g z with
    | none =>
      simp only [applyOrd, hfz]
      exact ih s (fun x hx => H x (List.mem_cons_of_mem _ hx))
    | some n =>
      have hname : n.name = z := by simpa using List.find?_some hfz
      obtain ⟨hd, r, hs, happ, hrc⟩ := H z (List.mem_cons_self _ _) n hfz
      have hskip := applyNode_skip p s n r hd (hname ▸ hs) hrc happ (hh n.name)
      simp only [applyOrd, hfz, hskip]
      rw [ih s (fun x hx => H x (List.mem_cons_of_mem _ hx))]
      rfl

theorem build_ok_facts {g : RSpec} {ord : List String}
    (h : build g = .ok ord) :
    (names g).Nodup ∧ (∀ n ∈ g, ∀ d ∈ n.deps, d ∈ names g) ∧
    (kahnLoop g.length g).2 = [] ∧ (kahnLoop g.length g).1 = ord := by
  unfold build at h
  cases h1 : firstDup (names g) with
  | some n => rw [h1] at h; exact absurd h (by simp)
  | none =>
    rw [h1] at h
    cases h2 : firstBadDep g with
    | some pr => rw [h2] at h; exact absurd h (by simp)
    | none =>
      rw [h2] at h
      by_cases h3 : (kahnLoop g.length g).2.isEmpty
      · refine ⟨firstDup_none_nodup _ h1, firstBadDep_none_res h2,
          List.isEmpty_iff.mp h3, ?_⟩
        simp only [h3, if_true] at h
        simpa using h
      · simp [h3] at h

/-- C7: once `apply` has driven every node of the graph to Applied, a
second `apply` of the unchanged spec issues zero additional provider
`ensure` calls (and leaves the state store unchanged). -/
theorem apply_idempotent (g : RSpec) (p : Provider) (s0 : Store)
    (ord : List String)
    (hbuild : build g = .ok ord)
    (hrefs : RefsOk g)
    (hhealthy : ∀ x, p.healthy x = true)
    (hall : ∀ y ∈ names g, ∃ r, (applyOrd p g s0 ord).1 y = some r ∧
      r.lstate = .applied) :
    applyOrd p g (applyOrd p g s0 ord).1 ord
      = ((applyOrd p g s0 ord).1, 0) := by
  obtain ⟨hnodupg, hres, hkempty, hkord⟩ := build_ok_facts hbuild
  have htopo : TopoSorted g ord := by
    rw [← hkord]
    exact kahn_topo hnodupg g.length g (List.Sublist.refl g) hkempty
  have hnd : ord.Nodup := by
    rw [← hkord]
    exact kahnLoop_ord_nodup g.length g hnodupg
  have hsubord : ∀ x ∈ ord, x ∈ names g := by
    intro x hx
    rw [← hkord] at hx
    exact kahnLoop_ord_subset g.length g x hx
  apply applyOrd_noop p g hhealthy ord
  intro x hx n hfn
  have hnmem : n ∈ g := List.mem_of_find?_eq_some hfn
  constructor
  · unfold depsApplied
    rw [List.all_eq_true]
    intro d hd
    obtain ⟨r, hr, happ⟩ := hall d (hres n hnmem d hd)
    rw [hr]
    simp [happ]
  · obtain ⟨r, hr, happ⟩ := hall x (hsubord x hx)
    exact ⟨r, hr, happ,
      applyOrd_post p g hrefs ord s0 hnd htopo x hx n hfn r hr happ⟩

set_option maxRecDepth 100000 in
/-- C7 witness: on the five-node example graph with an always-succeeding
healthy provider, the second `apply` issues zero `ensure` calls. -/
theorem apply_idempotent_witness :
    applyOrd exampleProvider exampleGraph
      (applyOrd exampleProvider exampleGraph emptyStore
        ["network", "role", "cluster", "nodeGroup", "addon-autoscaler"]).1
      ["network", "role", "cluster", "nodeGroup", "addon-autoscaler"]
      = ((applyOrd exampleProvider exampleGraph emptyStore
        ["network", "role", "cluster", "nodeGroup", "addon-autoscaler"]).1, 0) :=
  apply_idempotent exampleGraph exampleProvider emptyStore
    ["network", "role", "cluster", "nodeGroup", "addon-autoscaler"]
    (by rfl) (by unfold RefsOk; decide) (fun _ => rfl)
    (by
      intro y hy
      have hy' : y ∈ ["network", "role", "cluster", "nodeGroup",
          "addon-autoscaler"] := by
        simpa [names, exampleGraph] using hy
      fin_cases hy' <;>
        exact ⟨⟨[], .applied, [("id", "X")]⟩, rfl, rfl⟩)

theorem isAppliedIn_congr {s1 s2 : Store} {y : String} (h : s1 y = s2 y) :
    isAppliedIn s1 y = isAppliedIn s2 y := by
  unfold isAppliedIn
  rw [h]

theorem destroyNode_preserve (s : Store) (x : String) {y : String}
    (h : y ≠ x) : (destroyNode s x).1 y = s y := by
  unfold destroyNode
  cases hs : s x with
  | some r =>
    simp only []
    by_cases ha : r.lstate = LState.applied
    · rw [if_pos ha]
      exact upsert_other h
    · rw [if_neg ha]
  | none => rfl

theorem destroyNode_self (s : Store) (x : String) :
    isAppliedIn (destroyNode s x).1 x = false := by
  unfold destroyNode
  cases hs : s x with
  | some r =>
    simp only []
    by_cases ha : r.lstate = LState.applied
    · rw [if_pos ha]
      unfold isAppliedIn
      simp [upsert]
    · rw [if_neg ha]
      unfold isAppliedIn
      simp only []
      rw [hs]
      simpa using ha
  | none =>
    simp only []
    unfold isAppliedIn
    rw [hs]

theorem destroyOrd_safe (g : RSpec) :
    ∀ (l : List String) (s : Store), DependentsBefore g l →
      (∀ x ∈ l, ∀ y ∈ g, x ∈ y.deps →
        y.name ∈ l ∨ isAppliedIn s y.name = false) →
      ∀ U x V, (destroyOrd s l).2 = U ++ x :: V →
        ∀ y ∈ g, x ∈ y.deps →
          y.name ∈ U ∨ isAppliedIn s y.name = false := by
  intro l
  induction l with
  | nil =>
    intro s _ _ U x V hseq
    simp only [destroyOrd] at hseq
    have := List.append_eq_nil.mp hseq.symm
    exact absurd this.2 (List.cons_ne_nil _ _)
  | cons z rest ih =>
    intro s hdb hinv U x V hseq y hy hdep
    have hinv1 : ∀ x' ∈ rest, ∀ y' ∈ g, x' ∈ y'.deps →
        y'.name ∈ rest ∨
        isAppliedIn (destroyNode s z).1 y'.name = false := by
      intro x' hx' y' hy' hd'
      by_cases hyz : y'.name = z
      · right
        rw [hyz]
        exact destroyNode_self s z
      · rcases hinv x' (List.mem_cons_of_mem _ hx') y' hy' hd' with hmem | hna
        · rcases List.mem_cons.mp hmem with hl | hr
          · exact absurd hl hyz
          · exact Or.inl hr
        · right
          rw [isAppliedIn_congr (destroyNode_preserve s z hyz)]
          exact hna
    unfold destroyOrd at hseq
    by_cases happ : isAppliedIn s z = true
    · have hdz : (destroyNode s z).2 = [z] := by
        unfold isAppliedIn at happ
        unfold destroyNode
        cases hs : s z with
        | some r =>
          rw [hs] at happ
          simp only []
          rw [if_pos (by simpa using happ)]
        | none =>
          rw [hs] at happ
          simp at happ
      rw [hdz] at hseq
      cases U with
      | nil =>
        simp only [List.nil_append, List.cons_append] at hseq
        obtain ⟨rfl, -⟩ := List.cons.inj hseq
        rcases hinv z (List.mem_cons_self _ _) y hy hdep with hmem | hna
        · exact absurd hmem (hdb.1 y hy hdep)
        · exact Or.inr hna
      | cons u U' =>
        simp only [List.cons_append] at hseq
        obtain ⟨rfl, h2⟩ := List.cons.inj hseq
        rcases ih (destroyNode s z).1 hdb.2 hinv1 U' x V h2 y hy hdep
            with hl | hr
        · exact Or.inl (List.mem_cons_of_mem _ hl)
        · by_cases hyz : y.name = z
          · exact Or.inl (hyz ▸ List.mem_cons_self _ _)
          · right
            rw [← isAppliedIn_congr (destroyNode_preserve s z hyz)]
            exact hr
    · have hdz : (destroyNode s z).2 = [] := by
        unfold isAppliedIn at happ
        unfold destroyNode
        cases hs : s z with
        | some r =>
          rw [hs] at happ
          simp only []
          rw [if_neg (by simpa using happ)]
        | none => rfl
      rw [hdz, List.nil_append] at hseq
      rcases ih (destroyNode s z).1 hdb.2 hinv1 U x V hseq y hy hdep
          with hl | hr
      · exact Or.inl hl
      · by_cases hyz : y.name = z
        · right
          rw [hyz]
          exact Bool.not_eq_true _ ▸ happ
        · right
          rw [← isAppliedIn_congr (destroyNode_preserve s z hyz)]
          exact hr

/-- C8: `destroy` follows the reverse topological order, so at every step
of the deletion sequence every dependent of the node being torn down was
either deleted earlier in the sequence or was never applied. -/
theorem destroy_ordering (g : RSpec) (s0 : Store) (ord : List String)
    (hbuild : build g = .ok ord) :
    ∀ U x V, (destroyOrd s0 ord.reverse).2 = U ++ x :: V →
      ∀ y ∈ g, x ∈ y.deps →
        y.name ∈ U ∨ isAppliedIn s0 y.name = false := by
  obtain ⟨hnodupg, hres, hkempty, hkord⟩ := build_ok_facts hbuild
  have htopo : TopoSorted g ord := by
    rw [← hkord]
    exact kahn_topo hnodupg g.length g (List.Sublist.refl g) hkempty
  have hcov : ∀ y ∈ names g, y ∈ ord := by
    intro y hy
    rcases kahnLoop_cover g.length g y hy with h | h
    · rw [hkord] at h
      exact h
    · rw [hkempty] at h
      simp [names] at h
  have hdb : DependentsBefore g ord.reverse :=
    topo_dependentsBefore_reverse htopo
  intro U x V hseq y hy hdep
  refine destroyOrd_safe g ord.reverse s0 hdb ?_ U x V hseq y hy hdep
  intro x' hx' y' hy' hd'
  exact Or.inl
    (List.mem_reverse.mpr (hcov y'.name (mem_names.mpr ⟨y', hy', rfl⟩)))

set_option maxRecDepth 100000 in
/-- C8 witness: destroying the fully-applied example graph deletes the
add-on, then the node group, then the cluster; when the cluster is torn
down its dependent node group is already in the deleted part of the
sequence. -/
theorem destroy_ordering_witness :
    ("nodeGroup" : String) ∈
        (["addon-autoscaler", "nodeGroup"] : List String) ∨
      isAppliedIn allAppliedStore "nodeGroup" = false :=
  destroy_ordering exampleGraph allAppliedStore
    ["network", "role", "cluster", "nodeGroup", "addon-autoscaler"] (by rfl)
    ["addon-autoscaler", "nodeGroup"] "cluster" ["role", "network"] (by rfl)
    ⟨"nodeGroup", .nodeGroup, [], ["cluster"]⟩ (by decide) (by decide)

end Controller
